import Mathlib

/-!
Shallow embedding of `src/src/main.rs` of the repeated prisoners' dilemma
simulation: the `CooperateOrDefect` move type, the payout constants, the
`Strategy` capability (a pure function from the two move histories to the
next move), the two built-in strategies, the `RepeatedPrisonersDilemma`
game state (the two move-history vectors; the `PhantomData` field carries
no data and is dropped), `play_next_round`, `calculate_score`, and the
`main` loop that plays `NUM_TURNS` rounds.

Rust `Vec::push` appends at the back, so histories are Lean lists with new
moves appended on the right; machine integer `isize` scores are modelled
as `Int` (the sums reached here are far from any overflow boundary, and
the spec treats scores as signed integers).
-/

/-- `pub const NUM_TURNS: usize = 200;` (src/src/main.rs:5). -/
def NUM_TURNS : Nat := 200

/-- `pub const COOPERATE_PAYOUT: isize = 10;` (src/src/main.rs:8). -/
def COOPERATE_PAYOUT : Int := 10

/-- `pub const DEFECT_PAYOUT: isize = 2;` (src/src/main.rs:11). -/
def DEFECT_PAYOUT : Int := 2

/-- `pub const NARC_OUT_OPPONENT_PAYOUT: isize = 20;` (src/src/main.rs:14). -/
def NARC_OUT_OPPONENT_PAYOUT : Int := 20

/-- `pub const GOT_NARCED_OUT_PAYOUT: isize = -5;` (src/src/main.rs:17). -/
def GOT_NARCED_OUT_PAYOUT : Int := -5

/-- `pub enum CooperateOrDefect { Cooperate, Defect }` (src/src/main.rs:21-24). -/
inductive CooperateOrDefect where
  | Cooperate
  | Defect
deriving DecidableEq, Repr

open CooperateOrDefect

/-- The `Strategy` trait's `next_move` capability (src/src/main.rs:32-42):
a pure function of `(my_moves, their_moves)`. The Rust trait's associated
`NAME` string plays no role in the game semantics and is omitted. -/
def Strategy : Type :=
  List CooperateOrDefect → List CooperateOrDefect → CooperateOrDefect

/-- `impl Strategy for AlwaysCooperate` (src/src/main.rs:47-56):
ignores both histories and returns `Cooperate`. -/
def AlwaysCooperate : Strategy := fun _my_moves _their_moves => Cooperate

/-- `impl Strategy for AlwaysDefect` (src/src/main.rs:61-70):
ignores both histories and returns `Defect`. -/
def AlwaysDefect : Strategy := fun _my_moves _their_moves => Defect

/-- `pub struct RepeatedPrisonersDilemma<P1, P2>` (src/src/main.rs:75-83).
The two type parameters only select the strategies; here the strategies
are passed to the operations explicitly, and the zero-sized `_ph_data:
PhantomData` field is dropped. -/
structure RepeatedPrisonersDilemma where
  player_1_moves : List CooperateOrDefect
  player_2_moves : List CooperateOrDefect
deriving DecidableEq, Repr

/-- `fn new()` (src/src/main.rs:90-96): both histories empty. -/
def RepeatedPrisonersDilemma.new : RepeatedPrisonersDilemma :=
  { player_1_moves := [], player_2_moves := [] }

/-- `fn play_next_round(&mut self)` (src/src/main.rs:98-106), with the
strategies `P1`, `P2` passed explicitly.  Note the source's line 100:
`P2::next_move(&self.player_2_moves, &self.player_2_moves)` — player 2
receives its OWN history as both arguments.  The embedding reproduces
this faithfully.  The `println!` of the round's move pair is I/O and is
not modelled. -/
def play_next_round (P1 P2 : Strategy) (g : RepeatedPrisonersDilemma) :
    RepeatedPrisonersDilemma :=
  let p1_move := P1 g.player_1_moves g.player_2_moves
  let p2_move := P2 g.player_2_moves g.player_2_moves
  { player_1_moves := g.player_1_moves ++ [p1_move]
    player_2_moves := g.player_2_moves ++ [p2_move] }

/-- The payoff table inlined in the match arms of `calculate_score`
(src/src/main.rs:112-117), keyed by (my move, their move) — the spec's
`PayoffMatrix.score`. -/
def score (mine theirs : CooperateOrDefect) : Int × Int :=
  match mine, theirs with
  | Cooperate, Cooperate => (COOPERATE_PAYOUT, COOPERATE_PAYOUT)
  | Cooperate, Defect => (GOT_NARCED_OUT_PAYOUT, NARC_OUT_OPPONENT_PAYOUT)
  | Defect, Cooperate => (NARC_OUT_OPPONENT_PAYOUT, GOT_NARCED_OUT_PAYOUT)
  | Defect, Defect => (DEFECT_PAYOUT, DEFECT_PAYOUT)

/-- The fold body of `calculate_score` (src/src/main.rs:112-117), the
closure `|(p1, p2), moves| match moves { ... }`, named so lemmas can refer
to it; its match arms are verbatim from the source. -/
def round_payout_step (acc : Int × Int)
    (moves : CooperateOrDefect × CooperateOrDefect) : Int × Int :=
  match moves with
  | (Cooperate, Cooperate) =>
      (acc.1 + COOPERATE_PAYOUT, acc.2 + COOPERATE_PAYOUT)
  | (Cooperate, Defect) =>
      (acc.1 + GOT_NARCED_OUT_PAYOUT, acc.2 + NARC_OUT_OPPONENT_PAYOUT)
  | (Defect, Cooperate) =>
      (acc.1 + NARC_OUT_OPPONENT_PAYOUT, acc.2 + GOT_NARCED_OUT_PAYOUT)
  | (Defect, Defect) =>
      (acc.1 + DEFECT_PAYOUT, acc.2 + DEFECT_PAYOUT)

/-- `fn calculate_score(&self)` (src/src/main.rs:108-118): a fold over the
zip of the two histories, accumulating both players' payouts from `(0, 0)`. -/
def calculate_score (g : RepeatedPrisonersDilemma) : Int × Int :=
  (g.player_1_moves.zip g.player_2_moves).foldl round_payout_step (0, 0)

/-- The `main` loop (src/src/main.rs:130-132): `play_next_round` applied
`n` times in strict sequence, starting from the given state. -/
def playRounds (P1 P2 : Strategy) (n : Nat) (g : RepeatedPrisonersDilemma) :
    RepeatedPrisonersDilemma :=
  match n with
  | 0 => g
  | n + 1 => playRounds P1 P2 n (play_next_round P1 P2 g)

/-- The corrected round function described by the spec (§4.3): strategy 2's
`next_move` is called with `(history_2, history_1)` — each player's own
history first, the opponent's second.  This is the spec-side definition
against which the source's `play_next_round` is compared; it differs from
the source only in the second argument of the `P2` call. -/
def play_next_round_correct (P1 P2 : Strategy) (g : RepeatedPrisonersDilemma) :
    RepeatedPrisonersDilemma :=
  let p1_move := P1 g.player_1_moves g.player_2_moves
  let p2_move := P2 g.player_2_moves g.player_1_moves
  { player_1_moves := g.player_1_moves ++ [p1_move]
    player_2_moves := g.player_2_moves ++ [p2_move] }

/-- The correctly wired engine's loop: `play_next_round_correct` applied
`n` times in strict sequence. -/
def playRoundsCorrect (P1 P2 : Strategy) (n : Nat)
    (g : RepeatedPrisonersDilemma) : RepeatedPrisonersDilemma :=
  match n with
  | 0 => g
  | n + 1 => playRoundsCorrect P1 P2 n (play_next_round_correct P1 P2 g)

/-- The tit-for-tat strategy of spec §4.1 (mirror the opponent's previous
move, cooperating on the first round), used as a history-sensitive input
that distinguishes the two wirings of `play_next_round`.  The opponent's
previous move is the last element of `their_moves`. -/
def tit_for_tat : Strategy := fun _my_moves their_moves =>
  their_moves.getLastD Cooperate

/-! ## Helper lemmas (shared; none of these is a claim's theorem) -/

/-- The fold body adds exactly the payoff-matrix entry of the round's move
pair to each accumulator component. -/
lemma round_payout_step_eq (acc : Int × Int)
    (m : CooperateOrDefect × CooperateOrDefect) :
    round_payout_step acc m
      = (acc.1 + (score m.1 m.2).1, acc.2 + (score m.1 m.2).2) := by
  obtain ⟨x, y⟩ := m
  cases x <;> cases y <;> rfl

/-- The fold from an arbitrary accumulator is that accumulator plus the
componentwise sums of the payoffs of the folded move pairs. -/
lemma foldl_round_payout
    (L : List (CooperateOrDefect × CooperateOrDefect)) (a b : Int) :
    L.foldl round_payout_step (a, b)
      = (a + (L.map fun m => (score m.1 m.2).1).sum,
         b + (L.map fun m => (score m.1 m.2).2).sum) := by
  induction L generalizing a b with
  | nil => simp
  | cons x xs ih =>
    rw [List.foldl_cons, round_payout_step_eq]
    rw [ih]
    simp only [List.map_cons, List.sum_cons, add_assoc]

/-- Summing a function over the zip of two lists equals summing it over
the indices below the shorter length, reading each list at that index. -/
lemma map_zip_sum_eq_range
    (f : CooperateOrDefect × CooperateOrDefect → Int)
    (l1 l2 : List CooperateOrDefect) :
    ((l1.zip l2).map f).sum
      = ∑ i ∈ Finset.range (min l1.length l2.length),
          f (l1.getD i Cooperate, l2.getD i Cooperate) := by
  induction l1 generalizing l2 with
  | nil => simp
  | cons x xs ih =>
    cases l2 with
    | nil => simp
    | cons y ys =>
      rw [List.zip_cons_cons, List.map_cons, List.sum_cons, ih]
      simp only [List.length_cons, Nat.succ_min_succ, Finset.sum_range_succ',
        List.getD_cons_succ, List.getD_cons_zero]
      ring

/-- `calculate_score` computed on arbitrary histories equals the
componentwise sum of payoffs over the common prefix of the two lists. -/
lemma calculate_score_eq_sum (l1 l2 : List CooperateOrDefect) :
    calculate_score { player_1_moves := l1, player_2_moves := l2 }
      = (∑ i ∈ Finset.range (min l1.length l2.length),
           (score (l1.getD i Cooperate) (l2.getD i Cooperate)).1,
         ∑ i ∈ Finset.range (min l1.length l2.length),
           (score (l1.getD i Cooperate) (l2.getD i Cooperate)).2) := by
  unfold calculate_score
  rw [foldl_round_payout]
  simp [map_zip_sum_eq_range]

/-- One round grows each history by exactly one element. -/
lemma play_next_round_length (P1 P2 : Strategy)
    (g : RepeatedPrisonersDilemma) :
    (play_next_round P1 P2 g).player_1_moves.length
        = g.player_1_moves.length + 1
      ∧ (play_next_round P1 P2 g).player_2_moves.length
        = g.player_2_moves.length + 1 := by
  simp [play_next_round]

/-- Playing `n` rounds grows each history by exactly `n` elements. -/
lemma playRounds_length (P1 P2 : Strategy) (n : Nat)
    (g : RepeatedPrisonersDilemma) :
    (playRounds P1 P2 n g).player_1_moves.length
        = g.player_1_moves.length + n
      ∧ (playRounds P1 P2 n g).player_2_moves.length
        = g.player_2_moves.length + n := by
  induction n generalizing g with
  | zero => simp [playRounds]
  | succ n ih =>
    have h := ih (play_next_round P1 P2 g)
    have hlen := play_next_round_length P1 P2 g
    simp only [playRounds] at h ⊢
    omega

/-- For the shipped strategies, which ignore their inputs, the source's
round function and the spec's correctly wired round function coincide on
every state. -/
lemma play_eq_correct_for_ignoring (g : RepeatedPrisonersDilemma) :
    play_next_round AlwaysCooperate AlwaysDefect g
      = play_next_round_correct AlwaysCooperate AlwaysDefect g := rfl

/-- Iterating the two round functions from the same state with the shipped
strategies yields identical states. -/
lemma playRounds_eq_correct_coop_defect (n : Nat)
    (g : RepeatedPrisonersDilemma) :
    playRounds AlwaysCooperate AlwaysDefect n g
      = playRoundsCorrect AlwaysCooperate AlwaysDefect n g := by
  induction n generalizing g with
  | zero => rfl
  | succ n ih =>
    simp only [playRounds, playRoundsCorrect]
    rw [← play_eq_correct_for_ignoring]
    exact ih _

/-! ## Claim theorems -/

/-- C1: the claim says `play_next_round` calls strategy 2's `next_move`
with (player 2's history, player 1's history); the source (line 100)
instead passes player 2's history as both arguments.  At the reachable
state (history_1 = [Cooperate], history_2 = [Defect]) with the
history-sensitive tit-for-tat as player 2, the shipped code makes player 2
mirror its own last move and play Defect, while the wiring demanded by the
claim would make it mirror the opponent and play Cooperate. -/
theorem play_next_round_p2_gets_own_history :
    (play_next_round AlwaysCooperate tit_for_tat
        { player_1_moves := [Cooperate],
          player_2_moves := [Defect] }).player_2_moves
      = [Defect, Defect]
    ∧ (play_next_round_correct AlwaysCooperate tit_for_tat
        { player_1_moves := [Cooperate],
          player_2_moves := [Defect] }).player_2_moves
      = [Defect, Cooperate] := by
  constructor <;> rfl

/-- C2: for every pair of strategies and every round count `R ≥ 0`, after
a game created empty has had `play_next_round` called `R` times, both move
histories have length exactly `R` (so the two histories are equal in
length at every observation point). -/
theorem histories_have_length_rounds (P1 P2 : Strategy) (R : Nat) :
    (playRounds P1 P2 R RepeatedPrisonersDilemma.new).player_1_moves.length
        = R
      ∧ (playRounds P1 P2 R RepeatedPrisonersDilemma.new).player_2_moves.length
        = R := by
  have h := playRounds_length P1 P2 R RepeatedPrisonersDilemma.new
  simpa [RepeatedPrisonersDilemma.new] using h

/-- C3: for every game state with `R` rounds played (both histories of
length `R`), `calculate_score` returns the componentwise sum over
`i ∈ [0, R)` of the payoff of `(history1[i], history2[i])`; it reads only
the `R` recorded rounds.  Idempotence — repeated calls with no intervening
`play_next_round` returning the same pair — is immediate because the
embedded `calculate_score` is a pure function of the game state. -/
theorem calculate_score_is_payoff_sum (g : RepeatedPrisonersDilemma)
    (R : Nat) (h1 : g.player_1_moves.length = R)
    (h2 : g.player_2_moves.length = R) :
    calculate_score g
      = (∑ i ∈ Finset.range R,
           (score (g.player_1_moves.getD i Cooperate)
             (g.player_2_moves.getD i Cooperate)).1,
         ∑ i ∈ Finset.range R,
           (score (g.player_1_moves.getD i Cooperate)
             (g.player_2_moves.getD i Cooperate)).2) := by
  obtain ⟨l1, l2⟩ := g
  simp only at h1 h2
  rw [calculate_score_eq_sum]
  simp [h1, h2]

/-- Witness for C3 at the concrete one-round state
`(history_1, history_2) = ([Cooperate], [Defect])` with `R = 1`. -/
theorem calculate_score_is_payoff_sum_witness :
    ({ player_1_moves := [Cooperate], player_2_moves := [Defect] }
        : RepeatedPrisonersDilemma).player_1_moves.length = 1
    ∧ ({ player_1_moves := [Cooperate], player_2_moves := [Defect] }
        : RepeatedPrisonersDilemma).player_2_moves.length = 1
    ∧ calculate_score
        { player_1_moves := [Cooperate], player_2_moves := [Defect] }
      = (∑ i ∈ Finset.range 1,
           (score (([Cooperate] : List CooperateOrDefect).getD i Cooperate)
             (([Defect] : List CooperateOrDefect).getD i Cooperate)).1,
         ∑ i ∈ Finset.range 1,
           (score (([Cooperate] : List CooperateOrDefect).getD i Cooperate)
             (([Defect] : List CooperateOrDefect).getD i Cooperate)).2) :=
  ⟨rfl, rfl,
    calculate_score_is_payoff_sum
      { player_1_moves := [Cooperate], player_2_moves := [Defect] } 1 rfl rfl⟩

/-- C4: the payoff function is total over the four move pairs (it is a
Lean function on the closed enum, so totality is inherent) and returns
exactly the fixed table. -/
theorem score_is_fixed_table :
    score Cooperate Cooperate = (10, 10)
    ∧ score Cooperate Defect = (-5, 20)
    ∧ score Defect Cooperate = (20, -5)
    ∧ score Defect Defect = (2, 2) := by
  decide

set_option maxRecDepth 40000 in
/-- C5: running AlwaysCooperate against AlwaysDefect for the configured
200 rounds produces (Cooperate, Defect) in every round — the histories are
exactly 200 Cooperates and 200 Defects — and `calculate_score` reports
(-1000, 4000). -/
theorem coop_vs_defect_200_rounds :
    playRounds AlwaysCooperate AlwaysDefect NUM_TURNS
        RepeatedPrisonersDilemma.new
      = { player_1_moves := List.replicate NUM_TURNS Cooperate,
          player_2_moves := List.replicate NUM_TURNS Defect }
    ∧ calculate_score
        (playRounds AlwaysCooperate AlwaysDefect NUM_TURNS
          RepeatedPrisonersDilemma.new)
      = (-1000, 4000) := by
  constructor <;> decide

/-- C6: the payoff function is symmetric under swapping both arguments and
both outputs: `score a b = (score b a).swap`. -/
theorem score_swap_symmetric (a b : CooperateOrDefect) :
    score a b = (score b a).swap := by
  cases a <;> cases b <;> rfl

/-- C7: on every pair of input histories, AlwaysCooperate returns
Cooperate and AlwaysDefect returns Defect — both are constant in their
inputs. -/
theorem builtin_strategies_constant
    (my_moves their_moves : List CooperateOrDefect) :
    AlwaysCooperate my_moves their_moves = Cooperate
    ∧ AlwaysDefect my_moves their_moves = Defect :=
  ⟨rfl, rfl⟩

/-- C8: every call to `play_next_round` appends exactly one move to each
player's history, leaving every previously recorded element in place (the
new history is the old one with a single element appended), and the
resulting state consists of nothing but these two updated histories. -/
theorem play_next_round_appends_one (P1 P2 : Strategy)
    (g : RepeatedPrisonersDilemma) :
    ∃ m1 m2,
      play_next_round P1 P2 g
        = { player_1_moves := g.player_1_moves ++ [m1],
            player_2_moves := g.player_2_moves ++ [m2] } :=
  ⟨_, _, rfl⟩

/-- C9: for the shipped pairing AlwaysCooperate (player 1) versus
AlwaysDefect (player 2), the engine's actual wiring — which passes player
2's history as both arguments to player 2 — produces, for every round
count, move histories and a final score identical to those of the
correctly wired engine, because both built-in strategies ignore their
inputs. -/
theorem shipped_pairing_wiring_irrelevant (n : Nat) :
    playRounds AlwaysCooperate AlwaysDefect n RepeatedPrisonersDilemma.new
      = playRoundsCorrect AlwaysCooperate AlwaysDefect n
          RepeatedPrisonersDilemma.new
    ∧ calculate_score
        (playRounds AlwaysCooperate AlwaysDefect n
          RepeatedPrisonersDilemma.new)
      = calculate_score
        (playRoundsCorrect AlwaysCooperate AlwaysDefect n
          RepeatedPrisonersDilemma.new) := by
  have h := playRounds_eq_correct_coop_defect n RepeatedPrisonersDilemma.new
  exact ⟨h, congrArg calculate_score h⟩

/-- C10: `calculate_score` is total on arbitrary histories, even of
unequal lengths: it sums payoffs exactly over the common prefix of length
`min len1 len2` (zip truncation) and never reads past either history's
end. -/
theorem calculate_score_total_min_prefix
    (l1 l2 : List CooperateOrDefect) :
    calculate_score { player_1_moves := l1, player_2_moves := l2 }
      = (∑ i ∈ Finset.range (min l1.length l2.length),
           (score (l1.getD i Cooperate) (l2.getD i Cooperate)).1,
         ∑ i ∈ Finset.range (min l1.length l2.length),
           (score (l1.getD i Cooperate) (l2.getD i Cooperate)).2) :=
  calculate_score_eq_sum l1 l2
